import Mathlib

/-!
Verification of the sqlite_clone file-format parser and B-tree navigator.

Shallow embedding conventions:
* bytes are `Nat` (values < 256 in every input we build);
* Rust `i64` values are `Int` with two's-complement wrapping made explicit
  (`wrap64`); Rust `usize` is `Nat`, with `usize_sub` marking the places
  where a subtraction can underflow (a debug-mode panic in Rust);
* fallible Rust code (`Result`, and every reachable `panic!`/`expect`/slice
  or cast failure) is `Option`, `none` covering both an `Err` return and a
  panic unless stated otherwise at the definition;
* `f64` values are carried as their 8-byte big-endian bit pattern (a `Nat`);
  IEEE-754 equality/comparison and the `i64 as f64` rounding cast are
  implemented exactly on those bit patterns.
-/

/-- Two's-complement wrap of an integer into the i64 range, as Rust's
wrapping shifts produce. -/
def wrap64 (x : Int) : Int :=
  (x + 9223372036854775808) % 18446744073709551616 - 9223372036854775808

namespace VarInt

/-- The loop of `VarInt::parse` (src/datatypes.rs): `i` is the iteration
index, `v` the accumulator; returns (value, bytes consumed from here on).
Bytes 1..8 (indices 0..7) contribute their low 7 bits, the high bit being
the continuation flag; index 8 contributes all 8 bits. `(v << 7) | low7`
on i64 equals `wrap64 (v * 128) + low7` because the wrap leaves the low
7 bits clear. -/
def parseGo : List Nat → Nat → Int → Int × Nat
  | [], _, v => (v, 0)
  | b :: bs, i, v =>
    if i = 8 then (wrap64 (v * 256) + b, 1)
    else
      let v2 := wrap64 (v * 128) + (b % 128)
      if b < 128 then (v2, 1)
      else ((parseGo bs (i + 1) v2).1, (parseGo bs (i + 1) v2).2 + 1)

/-- `VarInt::parse` (src/datatypes.rs lines 14..30): decode a varint from
the front of `bytes`, returning the value and the number of bytes read. -/
def parse (bytes : List Nat) : Int × Nat :=
  parseGo bytes 0 0

end VarInt

/-- `parsing::be_u8` on an exact slice: some value only when the slice has
exactly one byte (`try_into` fails otherwise). -/
def be_u8 (l : List Nat) : Option Nat :=
  match l with
  | [a] => some a
  | _ => none

/-- `parsing::be_u16` on an exact 2-byte slice. -/
def be_u16 (l : List Nat) : Option Nat :=
  match l with
  | [a, b] => some (a * 256 + b)
  | _ => none

/-- `parsing::be_u32` on an exact 4-byte slice. -/
def be_u32 (l : List Nat) : Option Nat :=
  match l with
  | [a, b, c, d] => some (((a * 256 + b) * 256 + c) * 256 + d)
  | _ => none

/-- Rust slicing `&i[a..b]`: the bytes from `a` (inclusive) to `b`
(exclusive). A slice reaching past the end comes back short here, and the
exact-width readers above then return `none`, matching the Rust panic or
`try_into` failure on the same input. -/
def byte_slice (l : List Nat) (a b : Nat) : List Nat :=
  (l.drop a).take (b - a)

/-- Rust `usize` subtraction: `none` models the debug-mode underflow panic. -/
def usize_sub (a b : Nat) : Option Nat :=
  if a < b then none else some (a - b)

/-- `DataType` (src/datatypes.rs): each fixed-width variant carries its
on-disk size in bytes exactly as the Rust enum does. -/
inductive DataType where
  | null (s : Nat)
  | int8 (s : Nat)
  | int16 (s : Nat)
  | int24 (s : Nat)
  | int32 (s : Nat)
  | int48 (s : Nat)
  | int64 (s : Nat)
  | float (s : Nat)
  | integer0 (s : Nat)
  | integer1 (s : Nat)
  | internal
  | blob (s : Nat)
  | str (s : Nat)
deriving DecidableEq, Repr

namespace DataType

/-- `DataType::from_varint` (src/datatypes.rs lines 51..68). The
`try_into` to an unsigned machine integer fails exactly on negative
values (`none`); 10 and 11 map to `Internal`, even values ≥ 12 to blobs,
odd values ≥ 13 to strings. -/
def from_varint (v : Int) : Option DataType :=
  if v < 0 then none
  else
    let x := v.toNat
    some (
      if x = 0 then .null 0
      else if x = 1 then .int8 1
      else if x = 2 then .int16 2
      else if x = 3 then .int24 3
      else if x = 4 then .int32 4
      else if x = 5 then .int48 6
      else if x = 6 then .int64 8
      else if x = 7 then .float 8
      else if x = 8 then .integer0 0
      else if x = 9 then .integer1 0
      else if x = 10 ∨ x = 11 then .internal
      else if x % 2 = 0 then .blob ((x - 12) / 2)
      else .str ((x - 13) / 2))

/-- `DataType::get_size` (src/datatypes.rs lines 70..86). -/
def get_size : DataType → Option Nat
  | .internal => none
  | .null s | .int8 s | .int16 s | .int24 s | .int32 s | .int48 s
  | .int64 s | .float s | .integer0 s | .integer1 s | .blob s | .str s => some s

/-- Modelled from the spec: `DataType::to_varint` is called by
`Record::serialize` (src/btree.rs line 715) but its definition is not
among the repository files given; per spec §3 the serial type of each
variant is the inverse of the `from_varint` mapping (10 chosen for
Internal). -/
def to_varint : DataType → Int
  | .null _ => 0
  | .int8 _ => 1
  | .int16 _ => 2
  | .int24 _ => 3
  | .int32 _ => 4
  | .int48 _ => 5
  | .int64 _ => 6
  | .float _ => 7
  | .integer0 _ => 8
  | .integer1 _ => 9
  | .internal => 10
  | .blob n => 12 + 2 * (n : Int)
  | .str n => 13 + 2 * (n : Int)

end DataType

/-! IEEE-754 binary64 on bit patterns. A bit pattern is a `Nat < 2^64`:
sign bit 63, exponent bits 62..52, fraction bits 51..0. These implement
exactly the comparisons Rust's `f64` operators perform and the
round-to-nearest-ties-to-even `i64 as f64` cast. -/

/-- Whether an f64 bit pattern is a NaN. -/
def f64_is_nan (bits : Nat) : Bool :=
  (bits / 2 ^ 52) % 2 ^ 11 = 2 ^ 11 - 1 ∧ bits % 2 ^ 52 ≠ 0

/-- Total order key of a non-NaN f64 bit pattern: sign-magnitude read of
the bits, which orders IEEE values correctly and sends both zeros to 0. -/
def f64_key (bits : Nat) : Int :=
  let mag : Int := bits % 2 ^ 63
  if bits / 2 ^ 63 % 2 = 0 then mag else -mag

/-- Rust `f64 == f64`: false when either side is NaN, otherwise equality
of values (same bits, or +0 and -0). -/
def f64_eq (a b : Nat) : Bool :=
  !f64_is_nan a && !f64_is_nan b && f64_key a = f64_key b

/-- Rust `f64::partial_cmp`: `none` when either side is NaN. -/
def f64_cmp (a b : Nat) : Option Ordering :=
  if f64_is_nan a ∨ f64_is_nan b then none else some (compare (f64_key a) (f64_key b))

/-- Assemble an f64 bit pattern from sign, biased exponent and fraction. -/
def f64_bits (sign exp frac : Nat) : Nat :=
  sign * 2 ^ 63 + exp * 2 ^ 52 + frac

/-- Rust's `i64 as f64` cast: round to nearest, ties to even. Every i64
magnitude is below 2^63, so the result is always finite. -/
def int_to_f64 (i : Int) : Nat :=
  if i = 0 then 0
  else
    let sign := if i < 0 then 1 else 0
    let n := i.natAbs
    let k := Nat.log2 n
    if k ≤ 52 then f64_bits sign (1023 + k) (n * 2 ^ (52 - k) - 2 ^ 52)
    else
      let shift := k - 52
      let q := n / 2 ^ shift
      let r := n % 2 ^ shift
      let half := 2 ^ (shift - 1)
      let q2 := if half < r ∨ (r = half ∧ q % 2 = 1) then q + 1 else q
      if q2 = 2 ^ 53 then f64_bits sign (1023 + k + 1) 0
      else f64_bits sign (1023 + k) (q2 - 2 ^ 52)

/-- `Value` (src/datatypes.rs): integers carry their value as `Int`
(the Rust widening casts between the integer variants are
value-preserving, so they vanish in this model), floats carry their bit
pattern, text the decoded characters. -/
inductive Value where
  | null
  | int8 (v : Int)
  | int16 (v : Int)
  | int24 (v : Int)
  | int32 (v : Int)
  | int48 (v : Int)
  | int64 (v : Int)
  | float (bits : Nat)
  | integer0
  | integer1
  | internal (bytes : List Nat)
  | blob (bytes : List Nat)
  | str (s : List Char)
deriving DecidableEq, Repr

/-- The inner match shared by the `Int8`..`Int64` arms of
`Value::eq` (src/datatypes.rs lines 161..232): the six arms are the same
match up to value-preserving widening casts, written once here with the
left value already widened to `Int`. -/
def int_value_eq (s : Int) : Value → Bool
  | .int8 o | .int16 o | .int24 o | .int32 o | .int48 o | .int64 o => s = o
  | .float o => f64_eq (int_to_f64 s) o
  | .integer0 => s = 0
  | .integer1 => s = 1
  | _ => false

/-- `Value::eq` (src/datatypes.rs lines 154..283). -/
def value_eq : Value → Value → Bool
  | .null, .null => true
  | .null, _ => false
  | .int8 s, o | .int16 s, o | .int24 s, o | .int32 s, o
  | .int48 s, o | .int64 s, o => int_value_eq s o
  | .float s, o =>
    match o with
    | .int8 v | .int16 v | .int24 v | .int32 v | .int48 v | .int64 v =>
      f64_eq s (int_to_f64 v)
    | .float v => f64_eq s v
    | .integer0 => f64_eq s (int_to_f64 0)
    | .integer1 => f64_eq s (int_to_f64 1)
    | _ => false
  | .integer0, o =>
    match o with
    | .int8 v | .int16 v | .int24 v | .int32 v | .int48 v | .int64 v => v = 0
    | .float v => f64_eq v (int_to_f64 0)
    | .integer0 => true
    | _ => false
  | .integer1, o =>
    match o with
    | .int8 v | .int16 v | .int24 v | .int32 v | .int48 v | .int64 v => v = 1
    | .float v => f64_eq v (int_to_f64 1)
    | .integer1 => true
    | _ => false
  | .internal s, .internal o => s = o
  | .internal _, _ => false
  | .blob s, .blob o => s = o
  | .blob _, _ => false
  | .str s, .str o => s = o
  | .str _, _ => false

/-- Lexicographic comparison of byte lists, Rust's `Ord` on `Vec<u8>`. -/
def bytes_cmp : List Nat → List Nat → Ordering
  | [], [] => .eq
  | [], _ :: _ => .lt
  | _ :: _, [] => .gt
  | a :: as_, b :: bs =>
    match compare a b with
    | .eq => bytes_cmp as_ bs
    | o => o

/-- Lexicographic comparison of character lists by code point: Rust's
`Ord` on `String` is byte-wise over UTF-8, which agrees with code-point
order. -/
def chars_cmp : List Char → List Char → Ordering
  | [], [] => .eq
  | [], _ :: _ => .lt
  | _ :: _, [] => .gt
  | a :: as_, b :: bs =>
    match compare a.toNat b.toNat with
    | .eq => chars_cmp as_ bs
    | o => o

/-- The inner match shared by the `Int8`..`Int64` arms of
`Value::partial_cmp` (src/datatypes.rs lines 301..384), with the left
value widened to `Int`. -/
def int_value_cmp (s : Int) : Value → Option Ordering
  | .null => some .gt
  | .int8 o | .int16 o | .int24 o | .int32 o | .int48 o | .int64 o =>
    some (compare s o)
  | .float o => f64_cmp (int_to_f64 s) o
  | .integer0 => some (compare s 0)
  | .integer1 => some (compare s 1)
  | .internal _ => none
  | _ => some .lt

/-- `Value::partial_cmp` (src/datatypes.rs lines 285..441): NULL sorts
first, then numerics by value, then text, then blobs; `Internal` is
incomparable, as are NaN floats. -/
def value_partial_cmp : Value → Value → Option Ordering
  | .null, o =>
    match o with
    | .null => some .eq
    | .internal _ => none
    | _ => some .lt
  | .int8 s, o | .int16 s, o | .int24 s, o | .int32 s, o
  | .int48 s, o | .int64 s, o => int_value_cmp s o
  | .float s, o =>
    match o with
    | .null => some .gt
    | .int8 v | .int16 v | .int24 v | .int32 v | .int48 v | .int64 v =>
      f64_cmp s (int_to_f64 v)
    | .float v => f64_cmp s v
    | .integer0 => f64_cmp s (int_to_f64 0)
    | .integer1 => f64_cmp s (int_to_f64 1)
    | .internal _ => none
    | _ => some .lt
  | .integer0, o =>
    match o with
    | .null => some .gt
    | .int8 v | .int16 v | .int24 v | .int32 v | .int48 v | .int64 v =>
      some (compare 0 v)
    | .float v => f64_cmp (int_to_f64 0) v
    | .integer0 => some .eq
    | .integer1 => some .lt
    | .internal _ => none
    | _ => some .lt
  | .integer1, o =>
    match o with
    | .null => some .gt
    | .int8 v | .int16 v | .int24 v | .int32 v | .int48 v | .int64 v =>
      some (compare 1 v)
    | .float v => f64_cmp (int_to_f64 1) v
    | .integer0 => some .gt
    | .integer1 => some .eq
    | .internal _ => none
    | _ => some .lt
  | .str s, o =>
    match o with
    | .str v => some (chars_cmp s v)
    | .blob _ => some .lt
    | .internal _ => none
    | _ => some .gt
  | .blob s, o =>
    match o with
    | .blob v => some (bytes_cmp s v)
    | .internal _ => none
    | _ => some .gt
  | .internal _, _ => none

/-- `Record` (src/btree.rs lines 663..667). -/
structure Record where
  col_types : List DataType
  values : List Value
deriving DecidableEq, Repr

/-- The loop of `Record::eq` (src/btree.rs lines 734..747): walk the left
record's values; a missing right column is an inequality; stop at the
first differing pair; a fully equal prefix means equal. -/
def record_eq_values : List Value → List Value → Bool
  | [], _ => true
  | _ :: _, [] => false
  | s :: ss, o :: os => if value_eq s o then record_eq_values ss os else false

/-- `Record::eq` (src/btree.rs lines 724..748). -/
def Record.eq (a b : Record) : Bool :=
  record_eq_values a.values b.values

/-- The loop of `Record::partial_cmp` (src/btree.rs lines 751..764): walk
the left record's values; a missing right column yields `Greater`; the
first differing pair yields that pair's value comparison; falling off the
end of the left record yields `none`. -/
def record_cmp_values : List Value → List Value → Option Ordering
  | [], _ => none
  | _ :: _, [] => some .gt
  | s :: ss, o :: os =>
    if value_eq s o then record_cmp_values ss os else value_partial_cmp s o

/-- `Record::partial_cmp` (src/btree.rs lines 750..765). -/
def record_partial_cmp (a b : Record) : Option Ordering :=
  record_cmp_values a.values b.values

/-! The table B-tree. In the Rust code a page holds child *page numbers*
resolved through the pager (`Btree::get_page`); a well-formed database
file makes the page graph reachable from the root a finite tree, which
this model captures directly as an inductive: `leaf` carries the
`(row_id, record)` cells a `TableLeafPage` iterator yields, `interior`
carries the `(left_child, key)` cells a `TableInteriorPage` iterator
yields plus the header's right-most child pointer. -/

mutual
inductive TableTree where
  | leaf : List (Int × Record) → TableTree
  | interior : TableCells → TableTree → TableTree

inductive TableCells where
  | nil : TableCells
  | cons : TableTree → Int → TableCells → TableCells
end

/-- The leaf loop of `Btree::get_row_rcrs` (src/btree.rs lines 49..56):
linear scan for the first cell whose row id equals the target. -/
def leaf_find (row_id : Int) : List (Int × Record) → Option Record
  | [] => none
  | (r, rec) :: rest => if r = row_id then some rec else leaf_find row_id rest

mutual
/-- `Btree::get_row_rcrs` (src/btree.rs lines 43..72) on the tree model. -/
def get_row_rcrs (row_id : Int) : TableTree → Option Record
  | .leaf cells => leaf_find row_id cells
  | .interior cells right => interior_descend row_id cells right
termination_by t => sizeOf t
decreasing_by all_goals (simp_wf <;> omega)

/-- The interior loop of `Btree::get_row_rcrs` (src/btree.rs lines
57..68): descend into the first child whose key satisfies
`row_id ≤ key`; if no cell qualifies, descend into the header's
right-most child. -/
def interior_descend (row_id : Int) : TableCells → TableTree → Option Record
  | .nil, right => get_row_rcrs row_id right
  | .cons child key rest, right =>
    if row_id ≤ key then get_row_rcrs row_id child
    else interior_descend row_id rest right
termination_by cells right => sizeOf cells + sizeOf right
decreasing_by all_goals (simp_wf <;> omega)
end

mutual
/-- `Btree::list_records_rcrs` (src/btree.rs lines 115..135) on the tree
model: leaves yield their cells; an interior page recurses into the cell
children in order (the right-most child is not visited — faithful to the
source, which iterates `pg.iter()` only). -/
def list_records_rcrs : TableTree → List (Int × Record)
  | .leaf cells => cells
  | .interior cells _right => scan_cells cells

/-- The interior loop of `Btree::list_records_rcrs`. -/
def scan_cells : TableCells → List (Int × Record)
  | .nil => []
  | .cons child _key rest => list_records_rcrs child ++ scan_cells rest
end

/-- `Btree::get_row` (src/btree.rs lines 39..41): start at the root. -/
def get_row (t : TableTree) (row_id : Int) : Option Record :=
  get_row_rcrs row_id t

/-- `Btree::list_records` (src/btree.rs lines 111..113). -/
def list_records (t : TableTree) : List (Int × Record) :=
  list_records_rcrs t

/-- Key order inside a leaf: row ids strictly increasing, all in the
interval (lo, hi]. -/
def cells_chain (lo : Int) : List (Int × Record) → Int → Bool
  | [], hi => lo ≤ hi
  | (r, _) :: rest, hi => lo < r && cells_chain r rest hi

mutual
/-- The key-order invariant of a table B-tree (spec §3, "Key order"):
every row id in the subtree lies in (lo, hi], each interior cell's key
bounds its child subtree from above and the previous key bounds it from
below, and leaf row ids are strictly increasing (row ids are unique
primary keys). -/
def tree_ordered (lo : Int) : TableTree → Int → Bool
  | .leaf cells, hi => cells_chain lo cells hi
  | .interior cells right, hi => cells_ordered lo cells right hi
termination_by t _hi => sizeOf t
decreasing_by all_goals (simp_wf <;> omega)

/-- Key order for an interior page's cell list followed by its right-most
child: threading the keys as interval bounds. -/
def cells_ordered (lo : Int) : TableCells → TableTree → Int → Bool
  | .nil, right, hi => tree_ordered lo right hi
  | .cons child key rest, right, hi =>
    tree_ordered lo child key && cells_ordered key rest right hi
termination_by cells right _hi => sizeOf cells + sizeOf right
decreasing_by all_goals (simp_wf <;> omega)
end

/-! `calc_payload_on_page` (src/btree.rs lines 767..801). The Rust lets
become named helpers. Arithmetic is `usize`: on the valid domain
(`usable_space = page_size - reserved_space ≥ 257`, as any parsed file
header guarantees) none of the subtractions underflows, so Nat truncated
subtraction coincides with the Rust values there. -/

/-- The `max_payload` (X) let of `calc_payload_on_page`. -/
def calc_max_payload (page_size reserved_space : Nat) (is_index_page : Bool) : Nat :=
  if is_index_page then (page_size - reserved_space - 12) * 64 / 255 - 23
  else page_size - reserved_space - 35

/-- The `min_payload` (M) let of `calc_payload_on_page`. -/
def calc_min_payload (page_size reserved_space : Nat) : Nat :=
  (page_size - reserved_space - 12) * 32 / 255 - 23

/-- The `k` (K) let of `calc_payload_on_page`. -/
def calc_k (page_size reserved_space payload_size : Nat) : Nat :=
  if payload_size < calc_min_payload page_size reserved_space then
    calc_min_payload page_size reserved_space
  else
    calc_min_payload page_size reserved_space +
      (payload_size - calc_min_payload page_size reserved_space) %
        (page_size - reserved_space - 4)

/-- `calc_payload_on_page` (src/btree.rs lines 767..801):
`on_page(P) = P ≤ X ? P : (K ≤ X ? K : M)`. -/
def calc_payload_on_page
    (page_size reserved_space payload_size : Nat) (is_index_page : Bool) : Nat :=
  if payload_size ≤ calc_max_payload page_size reserved_space is_index_page then
    payload_size
  else if calc_k page_size reserved_space payload_size ≤
      calc_max_payload page_size reserved_space is_index_page then
    calc_k page_size reserved_space payload_size
  else calc_min_payload page_size reserved_space

/-- `FileVersion` (src/lib.rs lines 123..128). -/
inductive FileVersion where
  | legacy
  | wal
deriving DecidableEq, Repr

/-- `FileVersion::try_from` (derived `TryFromPrimitive`); the caller
unwraps, so `none` is a panic. -/
def FileVersion.tryFrom (n : Nat) : Option FileVersion :=
  if n = 1 then some .legacy else if n = 2 then some .wal else none

/-- `TextEncoding` (src/lib.rs lines 130..136). -/
inductive TextEncoding where
  | utf8
  | utf16le
  | utf16be
deriving DecidableEq, Repr

/-- `TextEncoding::try_from` (derived `TryFromPrimitive`); unwrapped by
the caller, so `none` is a panic. -/
def TextEncoding.tryFrom (n : Nat) : Option TextEncoding :=
  if n = 1 then some .utf8
  else if n = 2 then some .utf16le
  else if n = 3 then some .utf16be
  else none

/-- `FileHeader` (src/lib.rs lines 7..30). -/
structure FileHeader where
  page_size : Nat
  file_write_version : FileVersion
  file_read_version : FileVersion
  reserved_space : Nat
  max_payload : Nat
  min_payload : Nat
  leaf_payload : Nat
  change_counter : Nat
  num_pages : Nat
  first_freelist : Nat
  num_freelist : Nat
  schema_cookie : Nat
  schema_format : Nat
  cache_size : Nat
  largest_root_page : Nat
  encoding : TextEncoding
  user_version : Nat
  incremental_vacuum : Bool
  app_id : Nat
  version_valid_for : Nat
  sqlite_version : Nat

/-- The magic string "SQLite format 3\0" as bytes. -/
def sqlite_magic : List Nat :=
  [83, 81, 76, 105, 116, 101, 32, 102, 111, 114, 109, 97, 116, 32, 51, 0]

/-- `FileHeader::parse` (src/lib.rs lines 35..120), read at the fixed
offsets the cursor reaches. `none` covers the `Err` returns (bad magic,
bad page size, bad payload fractions, a short read) and the panicking
`unwrap`s on the version and encoding enums. The page-size check is the
source's `page_size != 1 && (page_size <= 512 || page_size >= 32768 ||
page_size % 2 != 0)`. -/
def FileHeader.parse (i : List Nat) : Option FileHeader :=
  let total_size := i.length
  if byte_slice i 0 16 ≠ sqlite_magic then none else
  match be_u16 (byte_slice i 16 18) with
  | none => none
  | some page_size =>
  if page_size ≠ 1 ∧ (page_size ≤ 512 ∨ page_size ≥ 32768 ∨ page_size % 2 ≠ 0) then
    none
  else
  match (be_u8 (byte_slice i 18 19)).bind FileVersion.tryFrom with
  | none => none
  | some file_write =>
  match (be_u8 (byte_slice i 19 20)).bind FileVersion.tryFrom with
  | none => none
  | some file_read =>
  match be_u8 (byte_slice i 20 21), be_u8 (byte_slice i 21 22),
      be_u8 (byte_slice i 22 23), be_u8 (byte_slice i 23 24) with
  | some reserved_space, some max_payload, some min_payload, some leaf_payload =>
    if max_payload ≠ 64 ∨ min_payload ≠ 32 ∨ leaf_payload ≠ 32 then none
    else
    match be_u32 (byte_slice i 24 28), be_u32 (byte_slice i 28 32),
        be_u32 (byte_slice i 32 36), be_u32 (byte_slice i 36 40) with
    | some change_counter, some num_pages0, some first_freelist, some num_freelist =>
      match be_u32 (byte_slice i 40 44), be_u32 (byte_slice i 44 48),
          be_u32 (byte_slice i 48 52), be_u32 (byte_slice i 52 56) with
      | some schema_cookie, some schema_format, some cache_size, some largest_root_page =>
        match (be_u32 (byte_slice i 56 60)).bind TextEncoding.tryFrom with
        | none => none
        | some encoding =>
        match be_u32 (byte_slice i 60 64), be_u32 (byte_slice i 64 68),
            be_u32 (byte_slice i 68 72) with
        | some user_version, some incremental_vacuum, some app_id =>
          match be_u32 (byte_slice i 92 96), be_u32 (byte_slice i 96 100) with
          | some version_valid_for, some sqlite_version =>
            let num_pages :=
              if num_pages0 = 0 ∨ change_counter ≠ version_valid_for then
                total_size / page_size
              else num_pages0
            some (FileHeader.mk page_size file_write file_read reserved_space
              max_payload min_payload leaf_payload change_counter num_pages
              first_freelist num_freelist schema_cookie schema_format cache_size
              largest_root_page encoding user_version (incremental_vacuum ≠ 0)
              app_id version_valid_for sqlite_version)
          | _, _ => none
        | _, _, _ => none
      | _, _, _, _ => none
    | _, _, _, _ => none
  | _, _, _, _ => none

/-- Outcome of a pager page access, at the granularity claim C5 is
about: the byte offset the read is issued at, or the range error, or the
`usize` underflow a debug build panics on (a release build issues a wild
read at offset `(2^64 - 1) * page_size mod 2^64` instead). -/
inductive RawReadResult where
  | ok (offset : Nat)
  | outOfRange
  | underflowPanic
deriving DecidableEq, Repr

/-- `Pager::read_from_file` (src/pager.rs lines 49..59): range check
`page_num <= num_pages` only, then a read at `(page_num - 1) * page_size`. -/
def read_from_file (num_pages page_size page_num : Nat) : RawReadResult :=
  if page_num ≤ num_pages then
    match usize_sub page_num 1 with
    | some k => .ok (k * page_size)
    | none => .underflowPanic
  else .outOfRange

/-- `Pager::get_page` (src/pager.rs lines 61..82), at the range-check
granularity: reject `page_num > num_pages`, otherwise fall through to
`read_from_file` (the claim's out-of-range page is never in the LRU
cache, so the cache lookup is elided; the parse step after the read is
not modelled here). -/
def get_page (num_pages page_size page_num : Nat) : RawReadResult :=
  if page_num > num_pages then .outOfRange
  else read_from_file num_pages page_size page_num

/-- `FreelistPage` (src/pager.rs lines 125..129). -/
structure FreelistPage where
  free_pages : List Nat
  next_page_link : Option Nat
deriving DecidableEq, Repr

/-- The loop of `FreelistPage::deserialize`: read `count` big-endian u32
leaf page numbers starting at byte offset `4 * n` (the source iterates
`n in 2..=(list_size + 1)` with `pos = n * 4`). -/
def read_leaves (i : List Nat) : Nat → Nat → Option (List Nat)
  | _, 0 => some []
  | n, count + 1 => do
    let v ← be_u32 (byte_slice i (4 * n) (4 * n + 4))
    let rest ← read_leaves i (n + 1) count
    some (v :: rest)

/-- `FreelistPage::deserialize` (src/pager.rs lines 132..151): `u32
next_trunk` at offset 0 (0 meaning none), `u32 leaf_count` at offset 4,
then `leaf_count` u32 leaf page numbers from offset 8. -/
def FreelistPage.deserialize (i : List Nat) : Option FreelistPage := do
  let next_page ← be_u32 (byte_slice i 0 4)
  let next_page_link := if next_page > 0 then some next_page else none
  let list_size ← be_u32 (byte_slice i 4 8)
  let ints ← read_leaves i 2 list_size
  some ⟨ints, next_page_link⟩

/-- Read page `n` of the database and parse it as a freelist trunk, as
`main` does per iteration (`FreelistPage::deserialize(read_from_file(n))`);
the file itself is abstracted as a partial map from page number to page
bytes, `none` being a failed read. -/
def fetch_trunk (file : Nat → Option (List Nat)) (n : Nat) : Option FreelistPage :=
  match file n with
  | none => none
  | some bytes => FreelistPage.deserialize bytes

/-- Outcome of the freelist-walk loop of `main` under a fuel bound:
`finished` with the collected page list if the loop exited, `failed` if a
read or parse error made `main` return `Err`, `running` if the fuel ran
out with the loop still going. -/
inductive LoopOutcome where
  | finished (pages : List Nat)
  | failed
  | running
deriving DecidableEq, Repr

/-- The `while let Some(next) = freelist.next_page_link` loop of `main`
(src/main.rs lines 31..35). Faithful to the source's bug: the `let
freelist` inside the loop body shadows the outer binding only inside the
body, so the loop condition re-reads `fl` — the FIRST trunk page — every
iteration, and the page fetched is `fl`'s next link every time. -/
def freelist_loop (file : Nat → Option (List Nat)) (fl : FreelistPage) :
    Nat → List Nat → LoopOutcome
  | 0, pages =>
    match fl.next_page_link with
    | none => .finished pages
    | some _ => .running
  | fuel + 1, pages =>
    match fl.next_page_link with
    | none => .finished pages
    | some next =>
      match fetch_trunk file next with
      | none => .failed
      | some fl2 => freelist_loop file fl fuel (pages ++ next :: fl2.free_pages)

/-- The freelist collection of `main` (src/main.rs lines 25..35): push
the first trunk page number and its leaves, then run the loop. -/
def collect_freelist (file : Nat → Option (List Nat)) (first : Nat)
    (fuel : Nat) : LoopOutcome :=
  match fetch_trunk file first with
  | none => .failed
  | some fl => freelist_loop file fl fuel (first :: fl.free_pages)

/-! UTF-8. `Value::new` decodes text with Rust's
`String::from_utf8_lossy`, which replaces each maximal invalid subpart
with U+FFFD (and a truncated final sequence with a single U+FFFD). The
decoder below implements that behaviour byte-for-byte; `valid_utf8` is
the standard UTF-8 well-formedness grammar, written independently over
the lead-byte ranges. -/

/-- The U+FFFD replacement character. -/
def repl_char : Char := Char.ofNat 65533

/-- Whether `b2` is a valid second byte for the 3-byte lead `b`
(E0: A0..BF, ED: 80..9F, otherwise 80..BF). -/
def utf8_cont3_ok (b b2 : Nat) : Bool :=
  if b = 0xE0 then 0xA0 ≤ b2 ∧ b2 ≤ 0xBF
  else if b = 0xED then 0x80 ≤ b2 ∧ b2 ≤ 0x9F
  else 0x80 ≤ b2 ∧ b2 ≤ 0xBF

/-- Whether `b2` is a valid second byte for the 4-byte lead `b`
(F0: 90..BF, F4: 80..8F, otherwise 80..BF). -/
def utf8_cont4_ok (b b2 : Nat) : Bool :=
  if b = 0xF0 then 0x90 ≤ b2 ∧ b2 ≤ 0xBF
  else if b = 0xF4 then 0x80 ≤ b2 ∧ b2 ≤ 0x8F
  else 0x80 ≤ b2 ∧ b2 ≤ 0xBF

/-- Whether `b` is a continuation byte (80..BF). -/
def utf8_cont_ok (b : Nat) : Bool :=
  0x80 ≤ b ∧ b ≤ 0xBF

/-- One step of UTF-8 decoding: given the lead byte `b` and the bytes
after it, return the decoded scalar — `none` when the sequence starting
at `b` is invalid or truncated — together with how many bytes beyond the
lead the step consumed. On an error the step consumes exactly the
maximal valid prefix of a sequence (so decoding resumes right after it),
per the WHATWG substitution Rust's `from_utf8_lossy` implements. -/
def utf8_step (b : Nat) (bs : List Nat) : Option Char × Nat :=
  if b < 0x80 then (some (Char.ofNat b), 0)
  else if b < 0xC2 then (none, 0)
  else if b ≤ 0xDF then
    match bs with
    | b2 :: _ =>
      if utf8_cont_ok b2 then
        (some (Char.ofNat ((b - 0xC0) * 64 + (b2 - 0x80))), 1)
      else (none, 0)
    | [] => (none, 0)
  else if b ≤ 0xEF then
    match bs with
    | b2 :: b3 :: _ =>
      if utf8_cont3_ok b b2 then
        if utf8_cont_ok b3 then
          (some (Char.ofNat (((b - 0xE0) * 64 + (b2 - 0x80)) * 64 + (b3 - 0x80))), 2)
        else (none, 1)
      else (none, 0)
    | [b2] => if utf8_cont3_ok b b2 then (none, 1) else (none, 0)
    | [] => (none, 0)
  else if b ≤ 0xF4 then
    match bs with
    | b2 :: b3 :: b4 :: _ =>
      if utf8_cont4_ok b b2 then
        if utf8_cont_ok b3 then
          if utf8_cont_ok b4 then
            (some (Char.ofNat ((((b - 0xF0) * 64 + (b2 - 0x80)) * 64 + (b3 - 0x80))
              * 64 + (b4 - 0x80))), 3)
          else (none, 2)
        else (none, 1)
      else (none, 0)
    | [b2, b3] =>
      if utf8_cont4_ok b b2 then
        if utf8_cont_ok b3 then (none, 2) else (none, 1)
      else (none, 0)
    | [b2] => if utf8_cont4_ok b b2 then (none, 1) else (none, 0)
    | [] => (none, 0)
  else (none, 0)

/-- `String::from_utf8_lossy`: decode step by step, an invalid or
truncated step yielding U+FFFD in place of an error. -/
def utf8_lossy : List Nat → List Char
  | [] => []
  | b :: bs =>
    ((utf8_step b bs).1.getD repl_char) :: utf8_lossy (bs.drop (utf8_step b bs).2)
termination_by l => l.length
decreasing_by
  simp_wf
  have := List.length_drop (utf8_step b bs).2 bs
  omega

/-- UTF-8 well-formedness: every decoding step yields a scalar. -/
def valid_utf8 : List Nat → Bool
  | [] => true
  | b :: bs =>
    match utf8_step b bs with
    | (some _, k) => valid_utf8 (bs.drop k)
    | (none, _) => false
termination_by l => l.length
decreasing_by
  simp_wf
  have := List.length_drop k bs
  omega

/-- Big-endian value of a byte list. -/
def be_nat (l : List Nat) : Nat :=
  l.foldl (fun a b => a * 256 + b) 0

/-- Two's-complement read of a `w`-byte big-endian unsigned value, as the
Rust `iN::from_be_bytes` functions produce. -/
def to_signed (w : Nat) (n : Nat) : Int :=
  if n < 2 ^ (8 * w - 1) then (n : Int) else (n : Int) - 2 ^ (8 * w)

/-- `Value::new` (src/datatypes.rs lines 107..137). Each integer arm
calls `iN::from_be_bytes` on `value.try_into()`, whose `expect` panics
(`none`) unless the slice length is exactly the `iN` width — note the
Int24 and Int48 arms therefore demand 4 and 8 bytes though the serial
type supplies 3 and 6. The String arm never fails: it decodes lossily. -/
def value_new (data_type : DataType) (value : List Nat) : Option Value :=
  match data_type with
  | .null _ => some .null
  | .int8 _ =>
    if value.length = 1 then some (.int8 (to_signed 1 (be_nat value))) else none
  | .int16 _ =>
    if value.length = 2 then some (.int16 (to_signed 2 (be_nat value))) else none
  | .int24 _ =>
    if value.length = 4 then some (.int24 (to_signed 4 (be_nat value))) else none
  | .int32 _ =>
    if value.length = 4 then some (.int32 (to_signed 4 (be_nat value))) else none
  | .int48 _ =>
    if value.length = 8 then some (.int48 (to_signed 8 (be_nat value))) else none
  | .int64 _ =>
    if value.length = 8 then some (.int64 (to_signed 8 (be_nat value))) else none
  | .float _ =>
    if value.length = 8 then some (.float (be_nat value)) else none
  | .integer0 _ => some .integer0
  | .integer1 _ => some .integer1
  | .internal => some (.internal value)
  | .blob _ => some (.blob value)
  | .str _ => some (.str (utf8_lossy value))

/-- The header loop of `Record::deserialize` (src/btree.rs lines
685..695): repeatedly parse a serial-type varint from the next at most 9
header bytes, map it through `DataType::from_varint` (whose failure the
source `expect`s — a panic, `none` here), and advance by the bytes the
varint consumed. -/
def parse_col_types_go : Nat → List Nat → Option (List DataType)
  | _, [] => some []
  | 0, _ :: _ => none
  | fuel + 1, x :: xs =>
    match DataType.from_varint (VarInt.parse ((x :: xs).take 9)).1 with
    | none => none
    | some dt =>
      match parse_col_types_go fuel ((x :: xs).drop (VarInt.parse ((x :: xs).take 9)).2) with
      | none => none
      | some rest => some (dt :: rest)

/-- The loop consumes at least one byte per iteration (a varint parse on
a nonempty slice reads at least one byte), so `length` much fuel always
suffices and the fuel-exhaustion arm above is unreachable. -/
def parse_col_types (l : List Nat) : Option (List DataType) :=
  parse_col_types_go l.length l

/-- The value loop of `Record::deserialize` (src/btree.rs lines
697..704): for each column that has a size (Internal is skipped), slice
that many bytes from the packed values and build the value; an
out-of-range slice or a `Value::new` failure is a panic (`none`). -/
def read_values : List DataType → List Nat → Nat → Option (List Value)
  | [], _, _ => some []
  | col :: rest, input, pos =>
    match DataType.get_size col with
    | none => read_values rest input pos
    | some size =>
      if input.length < pos + size then none
      else
        match value_new col (byte_slice input pos (pos + size)) with
        | none => none
        | some v =>
          match read_values rest input (pos + size) with
          | none => none
          | some vs => some (v :: vs)

/-- `Record::deserialize` (src/btree.rs lines 677..710): read the
header-size varint H (consuming `b` bytes), take `H as usize - b` more
header bytes (the cast is wrapping, the subtraction a `usize` debug
panic on underflow), parse the serial types from them, then read the
packed values starting at byte offset H. -/
def Record.deserialize (i : List Nat) : Option Record :=
  let p := VarInt.parse i
  let b := p.2
  let hs := (p.1 % 18446744073709551616).toNat
  match usize_sub hs b with
  | none => none
  | some header_size_size =>
    if i.length < b + header_size_size then none
    else
      match parse_col_types (byte_slice i b (b + header_size_size)) with
      | none => none
      | some col_types =>
        match read_values col_types (i.drop hs) 0 with
        | none => none
        | some values => some ⟨col_types, values⟩

/-- Big-endian bytes of the low `w` bytes of `n` (most significant
first). -/
def be_bytes : Nat → Nat → List Nat
  | 0, _ => []
  | w + 1, n => be_bytes w (n / 256) ++ [n % 256]

/-- Two's-complement `w*8`-bit pattern of an integer, as a Nat. -/
def to_unsigned (w : Nat) (v : Int) : Nat :=
  (v % (2 : Int) ^ (8 * w)).toNat

/-- The base-128 digit loop: `fuel` bounds the recursion depth; 9 extra
digits cover any value below 2^64. -/
def base128_go : Nat → Nat → List Nat
  | 0, u => [u % 128]
  | fuel + 1, u => if u < 128 then [u] else base128_go fuel (u / 128) ++ [u % 128]

/-- Base-128 digits of `u`, most significant first, at least one digit. -/
def base128_digits (u : Nat) : List Nat :=
  base128_go 9 u

/-- Set the continuation bit on every digit but the last. -/
def add_cont : List Nat → List Nat
  | [] => []
  | [d] => [d]
  | d :: rest => (d + 128) :: add_cont rest

/-- Exactly `count` base-128 digits of `u`, most significant first. -/
def fixed7 (u : Nat) : Nat → List Nat
  | 0 => []
  | c + 1 => fixed7 (u / 128) c ++ [u % 128]

/-- Modelled from the spec: `VarInt::serialize` is called by
`Record::serialize` (src/btree.rs line 715) but its definition is not
among the repository files given; spec §4.2 prescribes the minimal-length
encoding whose decode round-trips: values whose 64-bit pattern fits 56
bits use 1..8 bytes of 7 bits with continuation flags, larger patterns
use the 9-byte form whose last byte carries 8 bits. -/
def varint_serialize (v : Int) : List Nat :=
  let u := (v % 18446744073709551616).toNat
  if u < 72057594037927936 then add_cont (base128_digits u)
  else (fixed7 (u / 256) 8).map (· + 128) ++ [u % 256]

/-- UTF-8 encoding of one scalar value. -/
def utf8_encode_char (c : Char) : List Nat :=
  let n := c.toNat
  if n < 0x80 then [n]
  else if n < 0x800 then [0xC0 + n / 64, 0x80 + n % 64]
  else if n < 0x10000 then
    [0xE0 + n / 4096, 0x80 + n / 64 % 64, 0x80 + n % 64]
  else
    [0xF0 + n / 262144, 0x80 + n / 4096 % 64, 0x80 + n / 64 % 64, 0x80 + n % 64]

/-- UTF-8 encoding of a character list. -/
def utf8_encode (s : List Char) : List Nat :=
  (s.map utf8_encode_char).flatten

/-- Modelled from the spec: `Value::serialize` is called by
`Record::serialize` (src/btree.rs line 718) but its definition is not
among the repository files given; spec §4.3/§4.4 prescribe the packed
big-endian bytes of each value at its serial type's width (text as
UTF-8, floats as their 8 IEEE bytes, NULL and the literal 0/1 as no
bytes). -/
def value_serialize : Value → List Nat
  | .null => []
  | .int8 v => be_bytes 1 (to_unsigned 1 v)
  | .int16 v => be_bytes 2 (to_unsigned 2 v)
  | .int24 v => be_bytes 3 (to_unsigned 3 v)
  | .int32 v => be_bytes 4 (to_unsigned 4 v)
  | .int48 v => be_bytes 6 (to_unsigned 6 v)
  | .int64 v => be_bytes 8 (to_unsigned 8 v)
  | .float bits => be_bytes 8 bits
  | .integer0 => []
  | .integer1 => []
  | .internal bytes => bytes
  | .blob bytes => bytes
  | .str s => utf8_encode s

/-- `Record::serialize` (src/btree.rs lines 712..721): emit the
column-type varints, then the packed values — and nothing else. (No
varint carrying the total header size is prepended, although
`Record::deserialize` expects one first.) -/
def Record.serialize (r : Record) : List Nat :=
  (r.col_types.map (fun c => varint_serialize (DataType.to_varint c))).flatten ++
    (r.values.map value_serialize).flatten

/-- A 100-byte file header whose page-size field is `ps_hi * 256 + ps_lo`
and whose other fields are valid: correct magic, versions 1, payload
fractions 64/32/32, text encoding 1, all counters zero. -/
def header_bytes (ps_hi ps_lo : Nat) : List Nat :=
  sqlite_magic ++ [ps_hi, ps_lo, 1, 1, 0, 64, 32, 32] ++
    List.replicate 32 0 ++ [0, 0, 0, 1] ++ List.replicate 40 0

/-- A two-trunk freelist database: trunk page 6 has next-trunk 7 and the
single leaf 4; trunk page 7 has no next trunk and the single leaf 9. -/
def c9_file : Nat → Option (List Nat) := fun n =>
  if n = 6 then some [0, 0, 0, 7, 0, 0, 0, 1, 0, 0, 0, 4]
  else if n = 7 then some [0, 0, 0, 0, 0, 0, 0, 1, 0, 0, 0, 9]
  else none

/-- A one-column record with a fixed-size serial type (Int8, value 5). -/
def c3_rec : Record :=
  ⟨[DataType.int8 1], [Value.int8 5]⟩

/-- A one-column NULL record. -/
def c2_rec : Record :=
  ⟨[DataType.null 0], [Value.null]⟩

/-- A record payload whose header declares size 10 and contains the
9-byte varint encoding of -1 as its only serial type. -/
def c7_bad_record_bytes : List Nat :=
  [10, 255, 255, 255, 255, 255, 255, 255, 255, 255]

/-- A three-leaf, one-interior table B-tree: the interior page has one
cell (child = leaf with rows 1 and 2, key 2) and right-most child = leaf
with row 5. -/
def c1_tree : TableTree :=
  TableTree.interior
    (TableCells.cons (TableTree.leaf [(1, c2_rec), (2, c3_rec)]) 2 TableCells.nil)
    (TableTree.leaf [(5, c2_rec)])

/-! ## Claim theorems -/

/-- C4: the page-size validation of `FileHeader::parse` contradicts the
claim (and the source's own comment, src/lib.rs lines 43..44): with every
other field valid, page size 512 is rejected (`page_size <= 512`), page
size 32768 is rejected (`page_size >= 32768`), and the non-power-of-two
1000 is accepted (the code tests `page_size % 2 != 0`, evenness rather
than power-of-two); 1024 is accepted as expected. -/
theorem C4_page_size_validation_bug :
    FileHeader.parse (header_bytes 2 0) = none ∧
    FileHeader.parse (header_bytes 128 0) = none ∧
    (FileHeader.parse (header_bytes 3 232)).isSome = true ∧
    (FileHeader.parse (header_bytes 4 0)).isSome = true := by
  refine ⟨rfl, rfl, rfl, rfl⟩

/-- C5: `Pager::read_from_file` checks only `page_num <= num_pages`, so
page 0 passes the range check and the offset computation
`(page_num - 1) * page_size` underflows (a panic in a debug build, a
wild read in release) instead of producing the out-of-range error the
claim requires; pages inside [1, num_pages] read at offset
`(page_num - 1) * page_size` and pages above num_pages do get the
range error, and `Pager::get_page` behaves the same way. -/
theorem C5_pager_range_bug :
    read_from_file 10 4096 0 = RawReadResult.underflowPanic ∧
    get_page 10 4096 0 = RawReadResult.underflowPanic ∧
    read_from_file 10 4096 1 = RawReadResult.ok 0 ∧
    read_from_file 10 4096 10 = RawReadResult.ok (9 * 4096) ∧
    read_from_file 10 4096 11 = RawReadResult.outOfRange ∧
    get_page 10 4096 11 = RawReadResult.outOfRange := by
  refine ⟨rfl, rfl, rfl, rfl, rfl, rfl⟩

/-- C3 (code bug): `Record::serialize` emits only the column-type
varints and the packed values, never the leading header-size varint that
`Record::deserialize` reads first; on the single-Int8-column record the
serialized bytes [1, 5] deserialize to the empty record (the leading 1
is consumed as the header size), so the round trip fails. -/
theorem C3_record_roundtrip_bug :
    Record.serialize c3_rec = [1, 5] ∧
    Record.deserialize (Record.serialize c3_rec) = some (Record.mk [] []) ∧
    Record.deserialize (Record.serialize c3_rec) ≠ some c3_rec := by
  refine ⟨rfl, rfl, ?_⟩
  intro h
  rw [show Record.deserialize (Record.serialize c3_rec) = some (Record.mk [] []) from rfl]
    at h
  simp [c3_rec, Record.mk.injEq] at h

/-- C7 counterexample: `DataType::from_varint` maps the reserved serial
type 10 to the `Internal` variant, succeeding, where the claim demands an
`InvalidSerialType` failure. -/
theorem C7_serial_type_counterexample :
    DataType.from_varint 10 = some DataType.internal := rfl

set_option maxHeartbeats 1000000 in
/-- C7 amended: `DataType::from_varint` fails exactly on negative
serial-type values; the reserved values 10 and 11 succeed as the
`Internal` variant; and a failing serial type inside
`Record::deserialize` is not returned as an error but panics through
`expect` (modelled `none`), shown on a record payload whose only serial
type is the varint -1. -/
theorem C7_serial_type_amended :
    (∀ v : Int, DataType.from_varint v = none ↔ v < 0) ∧
    DataType.from_varint 10 = some DataType.internal ∧
    DataType.from_varint 11 = some DataType.internal ∧
    Record.deserialize c7_bad_record_bytes = none := by
  refine ⟨fun v => ?_, rfl, rfl, by decide⟩
  simp only [DataType.from_varint]
  by_cases h : v < 0
  · rw [if_pos h]
    simp [h]
  · rw [if_neg h]
    simp [h]

/-- Any varint parse starting at a nonempty byte list consumes at least
one byte. -/
theorem parseGo_len_pos (b : Nat) (bs : List Nat) (i : Nat) (v : Int) :
    1 ≤ (VarInt.parseGo (b :: bs) i v).2 := by
  simp only [VarInt.parseGo]
  split_ifs <;> simp

/-- The varint loop starting at iteration `i ≤ 8` consumes at most
`9 - i` bytes. -/
theorem parseGo_len_le (bs : List Nat) : ∀ (i : Nat) (v : Int), i ≤ 8 →
    (VarInt.parseGo bs i v).2 ≤ 9 - i := by
  induction bs with
  | nil => intro i v _; simp [VarInt.parseGo]
  | cons b bs ih =>
    intro i v hi
    simp only [VarInt.parseGo]
    split_ifs with h1 h2
    · omega
    · simp; omega
    · have := ih (i + 1) (wrap64 (v * 128) + (b % 128)) (by omega)
      simp; omega

/-- One continuation step of the varint loop consumes one byte plus
whatever the rest consumes. -/
theorem parseGo_count_step (b : Nat) (bs : List Nat) (i : Nat) (v : Int)
    (hi : ¬ i = 8) (hb : ¬ b < 128) :
    (VarInt.parseGo (b :: bs) i v).2
      = (VarInt.parseGo bs (i + 1) (wrap64 (v * 128) + (b % 128))).2 + 1 := by
  simp only [VarInt.parseGo]
  rw [if_neg hi, if_neg hb]

/-- At iteration index 8 the loop always stops after one byte. -/
theorem parseGo_count_nine (b : Nat) (bs : List Nat) (v : Int) :
    (VarInt.parseGo (b :: bs) 8 v).2 = 1 := by
  simp [VarInt.parseGo]

/-- C8 counterexample: on the empty input `VarInt::parse` consumes 0
bytes, violating the claimed `0 < length`; and on a slice of exactly 8
bytes that all carry the continuation bit it consumes 8 bytes, not the
claimed 9 (there is no 9th byte to read). -/
theorem C8_varint_counterexample :
    VarInt.parse ([] : List Nat) = (0, 0) ∧
    (VarInt.parse [129, 129, 129, 129, 129, 129, 129, 129]).2 = 8 := by
  refine ⟨rfl, rfl⟩

/-- C8 amended: on every NONEMPTY input the length consumed satisfies
0 < length ≤ 9; the first 8 bytes contribute their low 7 bits and a 9th
byte all 8 bits, so [0x81, 0x25] decodes to (0xA5, 2), and a slice of at
least 9 bytes whose first 8 all carry the continuation bit consumes
exactly 9 bytes. (The empty input consumes 0 bytes.) -/
theorem C8_varint_amended :
    (∀ bytes : List Nat, bytes ≠ [] →
        1 ≤ (VarInt.parse bytes).2 ∧ (VarInt.parse bytes).2 ≤ 9) ∧
    VarInt.parse [129, 37] = (165, 2) ∧
    (∀ (b0 b1 b2 b3 b4 b5 b6 b7 b8 : Nat) (rest : List Nat),
        128 ≤ b0 → 128 ≤ b1 → 128 ≤ b2 → 128 ≤ b3 → 128 ≤ b4 → 128 ≤ b5 →
        128 ≤ b6 → 128 ≤ b7 →
        (VarInt.parse
          (b0 :: b1 :: b2 :: b3 :: b4 :: b5 :: b6 :: b7 :: b8 :: rest)).2 = 9) := by
  refine ⟨?_, rfl, ?_⟩
  · intro bytes hne
    cases bytes with
    | nil => exact absurd rfl hne
    | cons b bs =>
      exact ⟨parseGo_len_pos b bs 0 0, parseGo_len_le (b :: bs) 0 0 (by omega)⟩
  · intro b0 b1 b2 b3 b4 b5 b6 b7 b8 rest h0 h1 h2 h3 h4 h5 h6 h7
    have n0 : ¬ b0 < 128 := by omega
    have n1 : ¬ b1 < 128 := by omega
    have n2 : ¬ b2 < 128 := by omega
    have n3 : ¬ b3 < 128 := by omega
    have n4 : ¬ b4 < 128 := by omega
    have n5 : ¬ b5 < 128 := by omega
    have n6 : ¬ b6 < 128 := by omega
    have n7 : ¬ b7 < 128 := by omega
    rw [VarInt.parse,
      parseGo_count_step b0 _ 0 _ (by decide) n0,
      parseGo_count_step b1 _ 1 _ (by decide) n1,
      parseGo_count_step b2 _ 2 _ (by decide) n2,
      parseGo_count_step b3 _ 3 _ (by decide) n3,
      parseGo_count_step b4 _ 4 _ (by decide) n4,
      parseGo_count_step b5 _ 5 _ (by decide) n5,
      parseGo_count_step b6 _ 6 _ (by decide) n6,
      parseGo_count_step b7 _ 7 _ (by decide) n7,
      parseGo_count_nine]

/-- The freelist loop of `main`, run against the two-trunk database,
never leaves the running state: the shadowed re-binding inside the loop
body leaves the loop condition reading the first trunk's next link
forever. -/
theorem freelist_loop_stuck : ∀ (fuel : Nat) (pages : List Nat),
    freelist_loop c9_file ⟨[4], some 7⟩ fuel pages = LoopOutcome.running := by
  intro fuel
  induction fuel with
  | zero =>
    intro pages
    rfl
  | succ n ih =>
    intro pages
    exact ih (pages ++ 7 :: [9])

/-- C9 (code bug): on a well-formed, finite, acyclic two-trunk freelist
(trunk 6 links to trunk 7, which ends the chain), the collection loop of
`main` never terminates: the `let freelist` inside the `while let` body
only shadows the outer binding inside the body, so the loop keeps
re-reading trunk 6's next pointer and re-fetches page 7 forever, instead
of returning the transitive union {6, 4, 7, 9}. -/
theorem C9_freelist_walk_bug :
    fetch_trunk c9_file 6 = some ⟨[4], some 7⟩ ∧
    fetch_trunk c9_file 7 = some ⟨[9], none⟩ ∧
    ∀ fuel : Nat, collect_freelist c9_file 6 fuel = LoopOutcome.running := by
  refine ⟨rfl, rfl, fun fuel => ?_⟩
  exact freelist_loop_stuck fuel (6 :: [4])

/-- For a usable size of at least 257 bytes (every parsed database
guarantees this: page size ≥ 512, reserved space ≤ 255) the minimum
payload M is strictly below the maximum X, and X is at most U - 35. -/
theorem c6_bounds (ps rs : Nat) (h : 257 ≤ ps - rs) (idx : Bool) :
    calc_min_payload ps rs + 1 ≤ calc_max_payload ps rs idx ∧
    calc_max_payload ps rs idx ≤ ps - rs - 35 := by
  cases idx <;> simp only [calc_min_payload, calc_max_payload, if_true, if_false,
    Bool.false_eq_true, Bool.true_eq_false] <;> omega

/-- C6 counterexample: with usable size 512 (page size 512, no reserved
space) on a table page, M = 39 and X = 477, yet on_page(548) = 40 — and
no threshold N makes on_page constantly equal to M from N on: on_page
keeps returning 40 at arbitrarily large payload sizes of the form
548 + 508·t, so "equal to min for all sufficiently large P" fails. -/
theorem C6_threshold_counterexample :
    calc_payload_on_page 512 0 548 false = 40 ∧
    ¬ ∃ N : Nat, ∀ P : Nat, N ≤ P →
        calc_payload_on_page 512 0 P false = calc_min_payload 512 0 := by
  have hmin : calc_min_payload 512 0 = 39 := by decide
  have hmax : calc_max_payload 512 0 false = 477 := by decide
  have hval : ∀ t : Nat, calc_payload_on_page 512 0 (548 + 508 * t) false = 40 := by
    intro t
    have hk : calc_k 512 0 (548 + 508 * t) = 40 := by
      rw [calc_k, hmin, if_neg (by omega)]
      omega
    rw [calc_payload_on_page, hmax, hk]
    rw [if_neg (by omega), if_pos (by omega)]
  constructor
  · have := hval 0
    simpa using this
  · rintro ⟨N, h⟩
    have h1 := h (548 + 508 * N) (by omega)
    rw [hval N, hmin] at h1
    omega

/-- C6 amended: below the maximum X the function is the identity (hence
non-decreasing); above X it equals K when K ≤ X and M otherwise, exactly
as the source computes — but it does NOT become constantly M for large
P: for every P there is a larger payload size above X where the value
differs from M (the K branch recurs with period U - 4). -/
theorem C6_threshold_amended (page_size reserved_space : Nat)
    (hU : 257 ≤ page_size - reserved_space) (is_index_page : Bool) :
    (∀ P1 P2 : Nat, P1 ≤ P2 →
        P2 ≤ calc_max_payload page_size reserved_space is_index_page →
        calc_payload_on_page page_size reserved_space P1 is_index_page ≤
          calc_payload_on_page page_size reserved_space P2 is_index_page) ∧
    (∀ P : Nat, calc_max_payload page_size reserved_space is_index_page < P →
        calc_payload_on_page page_size reserved_space P is_index_page =
          if calc_k page_size reserved_space P ≤
              calc_max_payload page_size reserved_space is_index_page then
            calc_k page_size reserved_space P
          else calc_min_payload page_size reserved_space) ∧
    (∀ P : Nat, ∃ Q : Nat, P ≤ Q ∧
        calc_max_payload page_size reserved_space is_index_page < Q ∧
        calc_payload_on_page page_size reserved_space Q is_index_page ≠
          calc_min_payload page_size reserved_space) := by
  obtain ⟨hA, hB⟩ := c6_bounds page_size reserved_space hU is_index_page
  refine ⟨?_, ?_, ?_⟩
  · intro P1 P2 h12 h2X
    rw [calc_payload_on_page, if_pos (le_trans h12 h2X),
      calc_payload_on_page, if_pos h2X]
    exact h12
  · intro P hXP
    rw [calc_payload_on_page, if_neg (by omega)]
  · intro P
    refine ⟨calc_min_payload page_size reserved_space + 1 +
      (page_size - reserved_space - 4) * (P + 1), ?_, ?_, ?_⟩
    · have ht : P + 1 ≤ (page_size - reserved_space - 4) * (P + 1) :=
        Nat.le_mul_of_pos_left _ (by omega)
      omega
    · have hu4 : (page_size - reserved_space - 4) * 1 ≤
          (page_size - reserved_space - 4) * (P + 1) :=
        Nat.mul_le_mul_left _ (by omega)
      omega
    · have hu4 : (page_size - reserved_space - 4) * 1 ≤
          (page_size - reserved_space - 4) * (P + 1) :=
        Nat.mul_le_mul_left _ (by omega)
      have hk : calc_k page_size reserved_space
          (calc_min_payload page_size reserved_space + 1 +
            (page_size - reserved_space - 4) * (P + 1)) =
          calc_min_payload page_size reserved_space + 1 := by
        rw [calc_k, if_neg (by omega)]
        have hsub : calc_min_payload page_size reserved_space + 1 +
            (page_size - reserved_space - 4) * (P + 1) -
            calc_min_payload page_size reserved_space =
            1 + (page_size - reserved_space - 4) * (P + 1) := by omega
        rw [hsub, Nat.add_mul_mod_self_left, Nat.mod_eq_of_lt (by omega)]
      rw [calc_payload_on_page, if_neg (by omega), if_pos (by omega), hk]
      omega

/-- The record comparison loop only ever reads the first `as.length`
elements of the right list. -/
theorem rcv_take (as : List Value) : ∀ bs : List Value,
    record_cmp_values as bs = record_cmp_values as (bs.take as.length) := by
  induction as with
  | nil => intro bs; rfl
  | cons a as ih =>
    intro bs
    cases bs with
    | nil => rfl
    | cons b bs =>
      simp only [record_cmp_values, List.length_cons, List.take_succ_cons]
      split_ifs with h
      · exact ih bs
      · rfl

/-- When the right list is at least as long and every aligned pair is
equal, the comparison loop falls off the left list and returns `none`. -/
theorem rcv_none (as : List Value) : ∀ bs : List Value,
    as.length ≤ bs.length →
    (∀ (j : Nat) (va vb : Value), as[j]? = some va → bs[j]? = some vb →
      value_eq va vb = true) →
    record_cmp_values as bs = none := by
  induction as with
  | nil => intro bs _ _; rfl
  | cons a as ih =>
    intro bs hlen h
    cases bs with
    | nil => simp at hlen
    | cons b bs =>
      have hab : value_eq a b = true := h 0 a b (by simp) (by simp)
      simp only [record_cmp_values, hab, if_true]
      refine ih bs (by simpa using hlen) ?_
      intro j va vb hja hjb
      exact h (j + 1) va vb (by simpa using hja) (by simpa using hjb)

/-- When the right list is shorter and every aligned pair is equal, the
comparison loop runs out of right columns and returns `Greater`. -/
theorem rcv_gt (as : List Value) : ∀ bs : List Value,
    bs.length < as.length →
    (∀ (j : Nat) (va vb : Value), as[j]? = some va → bs[j]? = some vb →
      value_eq va vb = true) →
    record_cmp_values as bs = some Ordering.gt := by
  induction as with
  | nil => intro bs hlen _; simp at hlen
  | cons a as ih =>
    intro bs hlen h
    cases bs with
    | nil => rfl
    | cons b bs =>
      have hab : value_eq a b = true := h 0 a b (by simp) (by simp)
      simp only [record_cmp_values, hab, if_true]
      refine ih bs (by simpa using hlen) ?_
      intro j va vb hja hjb
      exact h (j + 1) va vb (by simpa using hja) (by simpa using hjb)

/-- When the pairs before index `i` are equal and the pair at `i`
differs, the comparison loop returns that pair's value comparison. -/
theorem rcv_diff : ∀ (i : Nat) (as bs : List Value) (va vb : Value),
    as[i]? = some va → bs[i]? = some vb →
    (∀ j, j < i → ∀ x y : Value, as[j]? = some x → bs[j]? = some y →
      value_eq x y = true) →
    value_eq va vb = false →
    record_cmp_values as bs = value_partial_cmp va vb := by
  intro i
  induction i with
  | zero =>
    intro as bs va vb ha hb _ hne
    cases as with
    | nil => simp at ha
    | cons a as =>
      cases bs with
      | nil => simp at hb
      | cons b bs =>
        simp only [List.getElem?_cons_zero, Option.some.injEq] at ha hb
        subst ha; subst hb
        simp only [record_cmp_values, hne]
        simp
  | succ i ih =>
    intro as bs va vb ha hb hprev hne
    cases as with
    | nil => simp at ha
    | cons a as =>
      cases bs with
      | nil => simp at hb
      | cons b bs =>
        have hab : value_eq a b = true := hprev 0 (by omega) a b (by simp) (by simp)
        simp only [record_cmp_values, hab, if_true]
        refine ih as bs va vb (by simpa using ha) (by simpa using hb) ?_ hne
        intro j hj x y hx hy
        exact hprev (j + 1) (by omega) x y (by simpa using hx) (by simpa using hy)

/-- C2 counterexample: comparing the one-column NULL record with itself,
all compared columns are equal — `Record::eq` says so — yet
`Record::partial_cmp` returns `None`, not `Some(Equal)` as the claim
states (the loop's final `return None`). -/
theorem C2_prefix_cmp_counterexample :
    Record.eq c2_rec c2_rec = true ∧
    record_partial_cmp c2_rec c2_rec = none := by
  refine ⟨rfl, rfl⟩

/-- C2 amended: comparing `a` against `b` examines exactly the first
`a.values.length` columns (truncating `b` beyond that changes nothing);
if `b` has no column at some compared index while all earlier pairs are
equal the result is `Greater`; if the first differing pair is at index
`i` the result is that pair's value comparison; and if all compared
columns are equal the comparison returns `None` — not `Equal` (record
equality does hold then, by `Record::eq`). -/
theorem C2_prefix_cmp_amended :
    (∀ a b : Record, record_partial_cmp a b =
        record_partial_cmp a ⟨b.col_types, b.values.take a.values.length⟩) ∧
    (∀ a b : Record, a.values.length ≤ b.values.length →
        (∀ (j : Nat) (va vb : Value), a.values[j]? = some va →
          b.values[j]? = some vb → value_eq va vb = true) →
        record_partial_cmp a b = none) ∧
    (∀ a b : Record, b.values.length < a.values.length →
        (∀ (j : Nat) (va vb : Value), a.values[j]? = some va →
          b.values[j]? = some vb → value_eq va vb = true) →
        record_partial_cmp a b = some Ordering.gt) ∧
    (∀ (a b : Record) (i : Nat) (va vb : Value),
        a.values[i]? = some va → b.values[i]? = some vb →
        (∀ j, j < i → ∀ x y : Value, a.values[j]? = some x →
          b.values[j]? = some y → value_eq x y = true) →
        value_eq va vb = false →
        record_partial_cmp a b = value_partial_cmp va vb) := by
  refine ⟨?_, ?_, ?_, ?_⟩
  · intro a b
    exact rcv_take a.values b.values
  · intro a b hlen h
    exact rcv_none a.values b.values hlen h
  · intro a b hlen h
    exact rcv_gt a.values b.values hlen h
  · intro a b i va vb ha hb hprev hne
    exact rcv_diff i a.values b.values va vb ha hb hprev hne


/-- If the lossy decode of `bytes` contains no U+FFFD, then `bytes` was
valid UTF-8: every decoding step must have produced a scalar, since a
failed step puts U+FFFD at the front of the output. -/
theorem utf8_no_repl_valid : ∀ bytes : List Nat,
    repl_char ∉ utf8_lossy bytes → valid_utf8 bytes = true := by
  intro bytes
  induction bytes using utf8_lossy.induct with
  | case1 => intro _; simp [valid_utf8]
  | case2 b bs ih =>
    intro h
    rw [utf8_lossy] at h
    rw [valid_utf8]
    rcases hstep : utf8_step b bs with ⟨oc, k⟩
    rw [hstep] at h ih
    cases oc with
    | none => exact absurd (by simp) h
    | some c =>
      have h2 : repl_char ∉ utf8_lossy (List.drop k bs) := fun hm =>
        h (List.mem_cons_of_mem _ hm)
      exact ih h2

/-- C10: constructing a text value never fails — for every byte sequence
and every String serial type, `Value::new` succeeds and returns the
lossy UTF-8 decode of the bytes, and whenever the bytes are not valid
UTF-8 the decoded text contains the U+FFFD replacement character (the
invalid input surfaces as replacement characters, never as an error). -/
theorem C10_lossy_text_value : ∀ (n : Nat) (bytes : List Nat),
    value_new (DataType.str n) bytes = some (Value.str (utf8_lossy bytes)) ∧
    (valid_utf8 bytes = false → repl_char ∈ utf8_lossy bytes) := by
  intro n bytes
  refine ⟨rfl, fun hv => ?_⟩
  by_contra hmem
  rw [utf8_no_repl_valid bytes hmem] at hv
  simp at hv

/-- C10 witness: the single byte 0xFF is not valid UTF-8 and decodes to
the one-character string U+FFFD. -/
theorem C10_lossy_text_value_witness :
    value_new (DataType.str 0) [255] = some (Value.str (utf8_lossy [255])) ∧
    repl_char ∈ utf8_lossy [255] := by
  refine ⟨(C10_lossy_text_value 0 [255]).1, (C10_lossy_text_value 0 [255]).2 ?_⟩
  rw [valid_utf8]
  rfl

/-- A leaf chain's bounds are ordered. -/
theorem cells_chain_le : ∀ (cells : List (Int × Record)) (lo hi : Int),
    cells_chain lo cells hi = true → lo ≤ hi := by
  intro cells
  induction cells with
  | nil =>
    intro lo hi h
    simpa [cells_chain] using h
  | cons c rest ih =>
    intro lo hi h
    obtain ⟨r, rec⟩ := c
    simp only [cells_chain, Bool.and_eq_true, decide_eq_true_eq] at h
    exact le_trans (le_of_lt h.1) (ih r hi h.2)

/-- Every row id in a leaf chain lies in (lo, hi]. -/
theorem cells_chain_mem : ∀ (cells : List (Int × Record)) (lo hi r : Int)
    (rec : Record), cells_chain lo cells hi = true → (r, rec) ∈ cells →
    lo < r ∧ r ≤ hi := by
  intro cells
  induction cells with
  | nil =>
    intro lo hi r rec _ hm
    simp at hm
  | cons c rest ih =>
    intro lo hi r rec h hm
    obtain ⟨r0, rec0⟩ := c
    simp only [cells_chain, Bool.and_eq_true, decide_eq_true_eq] at h
    rcases List.mem_cons.1 hm with hhead | htail
    · injection hhead with h1 h2
      subst h1
      exact ⟨h.1, cells_chain_le rest r hi h.2⟩
    · have := ih r0 hi r rec h.2 htail
      exact ⟨lt_trans h.1 this.1, this.2⟩

/-- In a strictly increasing leaf, the linear scan finds exactly the
member's record. -/
theorem leaf_find_mem : ∀ (cells : List (Int × Record)) (lo hi r : Int)
    (rec : Record), cells_chain lo cells hi = true → (r, rec) ∈ cells →
    leaf_find r cells = some rec := by
  intro cells
  induction cells with
  | nil =>
    intro lo hi r rec _ hm
    simp at hm
  | cons c rest ih =>
    intro lo hi r rec h hm
    obtain ⟨r0, rec0⟩ := c
    simp only [cells_chain, Bool.and_eq_true, decide_eq_true_eq] at h
    rcases List.mem_cons.1 hm with hhead | htail
    · injection hhead with h1 h2
      subst h1; subst h2
      simp [leaf_find]
    · have hbound := cells_chain_mem rest r0 hi r rec h.2 htail
      have hne : r0 ≠ r := by omega
      simp only [leaf_find, if_neg hne]
      exact ih r0 hi r rec h.2 htail

mutual
/-- An ordered subtree's interval is non-empty. -/
theorem tree_ordered_le : ∀ (lo : Int) (t : TableTree) (hi : Int),
    tree_ordered lo t hi = true → lo ≤ hi
  | lo, .leaf cells, hi, h => by
    simp only [tree_ordered] at h
    exact cells_chain_le cells lo hi h
  | lo, .interior cells right, hi, h => by
    simp only [tree_ordered] at h
    exact cells_ordered_le lo cells right hi h
termination_by _lo t _hi _h => sizeOf t
decreasing_by all_goals (simp_wf <;> omega)

/-- An ordered cell list's interval is non-empty. -/
theorem cells_ordered_le : ∀ (lo : Int) (cs : TableCells) (right : TableTree)
    (hi : Int), cells_ordered lo cs right hi = true → lo ≤ hi
  | lo, .nil, right, hi, h => by
    simp only [cells_ordered] at h
    exact tree_ordered_le lo right hi h
  | lo, .cons child key rest, right, hi, h => by
    simp only [cells_ordered, Bool.and_eq_true] at h
    exact le_trans (tree_ordered_le lo child key h.1)
      (cells_ordered_le key rest right hi h.2)
termination_by _lo cs right _hi _h => sizeOf cs + sizeOf right
decreasing_by all_goals (simp_wf <;> omega)
end

mutual
/-- Every row id the scan yields from an ordered subtree lies in the
subtree's key interval (lo, hi]. -/
theorem scan_bounds : ∀ (lo hi : Int) (t : TableTree) (r : Int) (rec : Record),
    tree_ordered lo t hi = true → (r, rec) ∈ list_records_rcrs t →
    lo < r ∧ r ≤ hi
  | lo, hi, .leaf cells, r, rec, h, hm => by
    simp only [tree_ordered] at h
    simp only [list_records_rcrs] at hm
    exact cells_chain_mem cells lo hi r rec h hm
  | lo, hi, .interior cells right, r, rec, h, hm => by
    simp only [tree_ordered] at h
    simp only [list_records_rcrs] at hm
    exact scan_cells_bounds lo hi cells right r rec h hm
termination_by _lo _hi t _r _rec _h _hm => sizeOf t
decreasing_by all_goals (simp_wf <;> omega)

/-- Bounds for the cell portion of an ordered interior page. -/
theorem scan_cells_bounds : ∀ (lo hi : Int) (cs : TableCells)
    (right : TableTree) (r : Int) (rec : Record),
    cells_ordered lo cs right hi = true → (r, rec) ∈ scan_cells cs →
    lo < r ∧ r ≤ hi
  | lo, hi, .nil, right, r, rec, h, hm => by
    simp only [scan_cells] at hm
    simp at hm
  | lo, hi, .cons child key rest, right, r, rec, h, hm => by
    simp only [cells_ordered, Bool.and_eq_true] at h
    simp only [scan_cells] at hm
    rcases List.mem_append.mp hm with hm1 | hm2
    · have hb := scan_bounds lo key child r rec h.1 hm1
      have hkey : key ≤ hi := cells_ordered_le key rest right hi h.2
      exact ⟨hb.1, le_trans hb.2 hkey⟩
    · have hb := scan_cells_bounds key hi rest right r rec h.2 hm2
      have hlo : lo ≤ key := tree_ordered_le lo child key h.1
      exact ⟨lt_of_le_of_lt hlo hb.1, hb.2⟩
termination_by _lo _hi cs right _r _rec _h _hm => sizeOf cs + sizeOf right
decreasing_by all_goals (simp_wf <;> omega)
end

mutual
/-- In an ordered subtree, the descent finds every pair the scan
yields. -/
theorem get_row_complete : ∀ (lo hi : Int) (t : TableTree) (r : Int)
    (rec : Record), tree_ordered lo t hi = true →
    (r, rec) ∈ list_records_rcrs t → get_row_rcrs r t = some rec
  | lo, hi, .leaf cells, r, rec, h, hm => by
    simp only [tree_ordered] at h
    simp only [list_records_rcrs] at hm
    simp only [get_row_rcrs]
    exact leaf_find_mem cells lo hi r rec h hm
  | lo, hi, .interior cells right, r, rec, h, hm => by
    simp only [tree_ordered] at h
    simp only [list_records_rcrs] at hm
    simp only [get_row_rcrs]
    exact descend_complete lo hi cells right r rec h hm
termination_by _lo _hi t _r _rec _h _hm => sizeOf t
decreasing_by all_goals (simp_wf <;> omega)

/-- In an ordered interior page, the first-qualifying-key descent finds
every pair scanned out of the cell children. -/
theorem descend_complete : ∀ (lo hi : Int) (cs : TableCells)
    (right : TableTree) (r : Int) (rec : Record),
    cells_ordered lo cs right hi = true → (r, rec) ∈ scan_cells cs →
    interior_descend r cs right = some rec
  | lo, hi, .nil, right, r, rec, h, hm => by
    simp only [scan_cells] at hm
    simp at hm
  | lo, hi, .cons child key rest, right, r, rec, h, hm => by
    simp only [cells_ordered, Bool.and_eq_true] at h
    simp only [scan_cells] at hm
    simp only [interior_descend]
    rcases List.mem_append.mp hm with hm1 | hm2
    · have hb := scan_bounds lo key child r rec h.1 hm1
      rw [if_pos hb.2]
      exact get_row_complete lo key child r rec h.1 hm1
    · have hb := scan_cells_bounds key hi rest right r rec h.2 hm2
      rw [if_neg (not_le.mpr hb.1)]
      exact descend_complete key hi rest right r rec h.2 hm2
termination_by _lo _hi cs right _r _rec _h _hm => sizeOf cs + sizeOf right
decreasing_by all_goals (simp_wf <;> omega)
end

/-- C1: in a table B-tree satisfying the key-order invariant, every
(row_id, record) pair the full scan `list_records` yields is returned by
`get_row(row_id)` from the same root: the descent selects the first
child whose key satisfies row_id ≤ key, falls through to the right-most
child when no cell key qualifies, and the leaf's linear scan returns the
matching record. -/
theorem C1_table_descent_correct (t : TableTree) (lo hi : Int)
    (h : tree_ordered lo t hi = true) : ∀ (row_id : Int) (rec : Record),
    (row_id, rec) ∈ list_records t → get_row t row_id = some rec := by
  intro r rec hm
  exact get_row_complete lo hi t r rec h hm

/-- C1 witness: on a concrete ordered two-level tree, the pair (2, rec)
scanned out of the first leaf is found again by the descent. -/
theorem C1_table_descent_correct_witness :
    get_row c1_tree 2 = some c3_rec := by
  refine C1_table_descent_correct c1_tree 0 10 ?_ 2 c3_rec ?_
  · show tree_ordered 0 c1_tree 10 = true
    rw [c1_tree, tree_ordered, cells_ordered, cells_ordered, tree_ordered,
      tree_ordered]
    norm_num [cells_chain]
  · show (2, c3_rec) ∈ list_records c1_tree
    rw [c1_tree, list_records, list_records_rcrs, scan_cells, scan_cells,
      list_records_rcrs]
    simp

/-- C6 witness: at usable size 512 on a table page, beyond every bound
(1000 here) there is a payload size above the 477-byte maximum whose
on-page value differs from the 39-byte minimum. -/
theorem C6_threshold_amended_witness :
    ∃ Q : Nat, 1000 ≤ Q ∧ calc_max_payload 512 0 false < Q ∧
      calc_payload_on_page 512 0 Q false ≠ calc_min_payload 512 0 :=
  (C6_threshold_amended 512 0 (by decide) false).2.2 1000
